import Mathlib

/-!
# forest_bench3: the batched inference benchmark driver

A shallow embedding of `src/microbenchmark/src/forest_bench3.cpp`.

* `std::size_t` values are natural numbers below `SIZE`; every product,
  sum and difference the source computes on them is taken modulo `SIZE`.
* An unsigned division or remainder by zero has no defined result; it is the
  failure `Failure.DivisionByZero`.
* The inference engines are external.  A predict call is an event of the
  trace; whether it throws is read from the environment `Env`.
-/

namespace ForestBench

/-! ## `std::size_t` arithmetic -/

/-- Number of values of `std::size_t` (64 bit). -/
def SIZE : Nat := 2 ^ 64

/-- Product of two `std::size_t` values. -/
def mulS (a b : Nat) : Nat := (a * b) % SIZE

/-- Sum of two `std::size_t` values. -/
def addS (a b : Nat) : Nat := (a + b) % SIZE

/-- Difference of two `std::size_t` values; wraps around below zero. -/
def subS (a b : Nat) : Nat := (a + SIZE - b % SIZE) % SIZE

/-- Ways an execution can end other than by returning from `main`.
`IOError` and `InvalidArgument` are the names the specification uses for a
rejected file and a rejected batch size. -/
inductive Failure where
  | IOError
  | InvalidArgument
  | ExecutionError (k i j : Nat)
  | DivisionByZero
  deriving DecidableEq, Repr

/-- Quotient of two `std::size_t` values; a zero divisor has no defined result. -/
def divS (a b : Nat) : Except Failure Nat :=
  if b = 0 then .error .DivisionByZero else .ok (a / b)

/-! ## The batch partition of the driver loops -/

/-- The batch count, `rows / batch + (rows % batch != 0)`. -/
def total_batches (rows batch : Nat) : Except Failure Nat :=
  if batch = 0 then .error .DivisionByZero
  else .ok (addS (rows / batch) (if rows % batch != 0 then 1 else 0))

/-- The value `matrix{data, rows, cols}`; `data` is the element offset of the
view from the start of the dataset buffer. -/
structure matrix where
  data : Nat
  rows : Nat
  cols : Nat
  deriving DecidableEq, Repr

/-- The view of sub-range `j`:
`matrix{base + j * batch * features, std::min(batch, rows - j * batch), features}`. -/
def cur_input (rows features batch j : Nat) : matrix :=
  { data := mulS (mulS j batch) features
    rows := min batch (subS rows (mulS j batch))
    cols := features }

/-- Row offset and row count of sub-range `j`. -/
def sub_range (rows batch j : Nat) : Nat × Nat :=
  (mulS j batch, min batch (subS rows (mulS j batch)))

/-- The sub-ranges visited by `for (j = 0; j < total_batches; ++j)`. -/
def batch_plan (rows batch : Nat) : Except Failure (List (Nat × Nat)) :=
  match total_batches rows batch with
  | .error e => .error e
  | .ok total => .ok ((List.range total).map (sub_range rows batch))

/-- Length of the buffer `run_herring3` declares for a view, `rows * cols`. -/
def in_buf_size (m : matrix) : Nat := mulS m.rows m.cols

/-- Length of the output buffer `run_herring3` declares, `rows * num_outputs()`. -/
def out_buf_size (m : matrix) (num_outputs : Nat) : Nat := mulS m.rows num_outputs

/-! ## The dataset loader -/

/-- A `float` as the four bytes of its object representation. -/
structure float32 where
  b0 : Nat
  b1 : Nat
  b2 : Nat
  b3 : Nat
  deriving DecidableEq, Repr

/-- Reads a byte buffer as an array of `float`, four bytes each. -/
def to_floats : List Nat → List float32
  | a :: b :: c :: d :: rest => ⟨a, b, c, d⟩ :: to_floats rest
  | _ => []

/-- The function `load_array(path, rows, cols)`, on the bytes `file` found at
`path` (no bytes when the file cannot be opened).
`std::vector<float>(rows * cols)` is zero-filled, and
`input.read(buffer, result.size() * sizeof(float))` stores the bytes it could
extract at the front of it; a count that is negative as `std::streamsize`
extracts nothing. The stream state is not inspected and `result` is returned. -/
def load_array (file : List Nat) (rows cols : Nat) : List float32 :=
  let size := mulS rows cols
  let count := mulS size 4
  let got := if count < 2 ^ 63 then file.take count else []
  to_floats (got ++ (List.replicate (4 * size) 0).drop got.length)

/-! ## The driver -/

/-- The sweep `batch_sizes`. -/
def batch_sizes (rows : Nat) : List Nat :=
  [1, 2, 4, 8, 16, 32, 64, 128, 256, 512, 1024, 2048, 4096, 8192, 16384, 32768, 65536, rows]

/-- The three functions that hand a view to an inference engine, with the
model (`fil_model` or `fil_model_sparse`) or the `rpbi` argument of the call. -/
inductive Runner where
  | run_fil (sparse : Bool)
  | run_herring3 (rpbi : Nat)
  | run_herring3_cpu (rpbi : Nat)
  deriving DecidableEq, Repr

/-- The runner of the loop that fills `batch_timings[k]`. -/
def runner : Nat → Runner
  | 0 => .run_fil false
  | 1 => .run_fil true
  | 2 => .run_herring3 2
  | 3 => .run_herring3 4
  | 4 => .run_herring3 8
  | 5 => .run_herring3 16
  | 6 => .run_herring3 32
  | _ => .run_herring3_cpu 64

/-- Whether the loop that fills `batch_timings[k]` runs on the accelerator: it
then reads `gpu_buffer`, writes `gpu_out_buffer` and ends each pass with
`cudaStreamSynchronize(fil_model.get_stream())`. -/
def on_gpu (k : Nat) : Bool :=
  match runner k with
  | .run_herring3_cpu _ => false
  | _ => true

/-- The places where `std::chrono::high_resolution_clock::now()` is called:
the reads outside the sweeps by source line, and `batch_start`, `batch_end`
of pass `i` of loop `k`. -/
inductive Site where
  | line (n : Nat)
  | batch_start (k i : Nat)
  | batch_end (k i : Nat)
  deriving DecidableEq, Repr

/-- Content of one `float` of an output buffer: device memory not yet written,
a zero, element `idx` of what loop `k`'s engine computes for the view `input`,
or the result of reading past the end of a buffer. -/
inductive Cell where
  | uninit
  | zero
  | pred (k : Nat) (input : matrix) (idx : Nat)
  | out_of_bounds
  deriving DecidableEq, Repr

/-- What the run does, in program order: a clock read at `site`; the call of the
runner `run` in iteration `j` of pass `i` of loop `k`, with the view `input`
and the output pointer `out` floats past the start of the output buffer of the
loop; `kayak::cuda_check(cudaStreamSynchronize(fil_model.get_stream()))` at the
end of pass `i` of loop `k`; the `push_back` of pass `i` of loop `k`; the
`cudaMemcpy` to the host after loop `k`. -/
inductive Event where
  | now (site : Site)
  | predict (k i j : Nat) (run : Runner) (input : matrix) (out : Nat)
  | sync (k i : Nat)
  | push_back (k i : Nat) (us : Nat)
  | memcpy_to_host (k : Nat)
  deriving DecidableEq, Repr

/-- A line of standard output. -/
inductive Line where
  | WH (a b c : Cell)
  | title
  | elapsed (fil her : Int)
  | header (sizes : List Nat)
  | row (label : String) (timings : List Nat)
  deriving DecidableEq, Repr

/-- What the driver cannot decide: the clock readings, whether the predict call
on sub-range `j` of pass `i` of loop `k` throws, the number of outputs per row
of the engine of loop `k`, and `GetPredictOutputSize(tl_model, rows)`. -/
structure Env where
  clock : Site → Int
  predict_throws : Nat → Nat → Nat → Bool
  num_outputs : Nat → Nat
  output_size : Nat

/-- The variables of `main` that change during the run. -/
structure State where
  buffer : List float32
  batch_timings : List (List Nat)
  gpu_out_buffer : List Cell
  fil_output : List Cell
  her_output : List Cell
  output : List Cell
  stdout : List Line
  trace : List Event
  deriving DecidableEq, Repr

/-- Result of running a piece of `main`: the next state, or the failure that
ended the run and the state it left. -/
abbrev Res := Except (Failure × State) State

/-- A piece of `main`. -/
abbrev Step := State → Res

/-- Statements in sequence; a failure ends the sequence. -/
def seq : List Step → Step
  | [], s => .ok s
  | f :: fs, s =>
    match f s with
    | .ok s1 => seq fs s1
    | .error e => .error e

/-- A statement that cannot fail. -/
def lift (f : State → State) : Step := fun s => .ok (f s)

/-- The count of `duration_cast<microseconds>(stop - start)` for clock readings
in nanoseconds. -/
def microseconds (start stop : Int) : Int := Int.tdiv (stop - start) 1000

/-- Conversion of a signed count to `std::size_t`. -/
def to_size_t (x : Int) : Nat := (x % (SIZE : Int)).toNat

/-- The statement `batch_timings[k].push_back(x)`. -/
def push_back (bt : List (List Nat)) (k x : Nat) : List (List Nat) :=
  bt.set k (bt.getD k [] ++ [x])

/-- The `n` floats the engine of loop `k` produces for the view `input`. -/
def cells (k : Nat) (input : matrix) (n : Nat) : List Cell :=
  (List.range n).map (Cell.pred k input)

/-- Stores `vals` at the start of `buf`; what would land past the end of `buf`
is not part of it. -/
def write (buf vals : List Cell) : List Cell :=
  (vals ++ buf.drop vals.length).take buf.length

/-- The element `buf[idx]`. -/
def read (buf : List Cell) (idx : Nat) : Cell := buf.getD idx .out_of_bounds

/-- Records an event. -/
def emit (e : Event) (s : State) : State := { s with trace := s.trace ++ [e] }

/-- Effect of a predict call of loop `k` that returns: the engine's result for
the view, `rows * num_outputs` floats, is stored from the start of the output
buffer of the loop. For `run_fil`, `num_outputs` is the width of what
`ForestModel::predict` writes per row. -/
def store (env : Env) (k : Nat) (input : matrix) (s : State) : State :=
  let vals := cells k input (out_buf_size input (env.num_outputs k))
  if on_gpu k then { s with gpu_out_buffer := write s.gpu_out_buffer vals }
  else { s with output := write s.output vals }

/-- Iteration `j` of the inner loop of pass `i` of loop `k`: builds `cur_input`
and calls the runner with the start of the output buffer. -/
def call (env : Env) (rows features k i batch j : Nat) : Step := fun s =>
  let cur := cur_input rows features batch j
  let s1 := emit (.predict k i j (runner k) cur 0) s
  if env.predict_throws k i j then .error (.ExecutionError k i j, s1)
  else .ok (store env k cur s1)

/-- The sample of pass `i` of loop `k`:
`duration_cast<microseconds>(batch_end - batch_start).count()` as an element of
`batch_timings[k]`. -/
def sample (env : Env) (k i : Nat) : Nat :=
  to_size_t (microseconds (env.clock (.batch_start k i)) (env.clock (.batch_end k i)))

/-- The statement `batch_timings[k].push_back(...)` that ends pass `i`. -/
def record (env : Env) (k i : Nat) (s : State) : State :=
  emit (.push_back k i (sample env k i))
    { s with batch_timings := push_back s.batch_timings k (sample env k i) }

/-- The statements of a pass once `total_batches` is known. -/
def pass_body (env : Env) (rows features k i batch total : Nat) : List Step :=
  [lift (emit (.now (.batch_start k i)))]
    ++ (List.range total).map (call env rows features k i batch)
    ++ (if on_gpu k then [lift (emit (.sync k i))] else [])
    ++ [lift (emit (.now (.batch_end k i))), lift (record env k i)]

/-- The element `batch_sizes[i]`. -/
def batch_at (rows i : Nat) : Nat := (batch_sizes rows).getD i 0

/-- Pass `i` of loop `k`: the body of `for (i = 0; i < batch_sizes.size(); ++i)`. -/
def pass (env : Env) (rows features k i : Nat) : Step := fun s =>
  let batch := batch_at rows i
  match total_batches rows batch with
  | .error e => .error (e, s)
  | .ok total => seq (pass_body env rows features k i batch total) s

/-- Loop `k`: one pass per entry of `batch_sizes`. -/
def config_loop (env : Env) (rows features k : Nat) : Step :=
  seq ((List.range (batch_sizes rows).length).map (pass env rows features k))

/-- The statement `cudaMemcpy(dst, src, n * sizeof(float), cudaMemcpyDeviceToHost)`. -/
def memcpy (dst src : List Cell) (n : Nat) : List Cell := write dst (src.take n)

/-- A device buffer of `bytes` bytes, as floats. -/
def device_buffer (bytes : Nat) : List Cell := List.replicate (bytes / 4) .uninit

/-- The statements between the end of the previous loop and loop `k`; none of
them can fail. -/
def before_loop (env : Env) : Nat → List (State → State)
  | 0 => [emit (.now (.line 147))]
  | 1 => [emit (.now (.line 168))]
  | 2 => [emit (.now (.line 185)),
          fun s => { s with gpu_out_buffer := device_buffer (mulS env.output_size 4) },
          emit (.now (.line 189))]
  | 7 => [fun s => { s with output := List.replicate s.output.length .zero },
          emit (.now (.line 312))]
  | _ => []

/-- The statements between loop `k` and the next loop, or the report; none of
them can fail. -/
def after_loop (env : Env) : Nat → List (State → State)
  | 0 => [emit (.now (.line 162)),
          fun s => emit (.memcpy_to_host 0)
            { s with fil_output := memcpy s.fil_output s.gpu_out_buffer s.fil_output.length },
          fun s => { s with stdout := s.stdout ++
            [.WH (read s.fil_output 1)
                 (read s.fil_output (addS (mulS (env.output_size / 2) 2) 1))
                 (read s.fil_output (subS (mulS env.output_size 2) 1))] }]
  | 1 => [emit (.now (.line 183))]
  | 2 => [emit (.now (.line 213)),
          fun s => emit (.memcpy_to_host 2)
            { s with her_output :=
                memcpy (List.replicate env.output_size .zero) s.gpu_out_buffer env.output_size },
          fun s => { s with stdout := s.stdout ++
            [.WH (read s.her_output 0)
                 (read s.her_output (env.output_size / 2))
                 (read s.her_output (subS env.output_size 1))] }]
  | 7 => [emit (.now (.line 335)),
          fun s => { s with stdout := s.stdout ++
            [.WH (read s.output 0)
                 (read s.output (env.output_size / 2))
                 (read s.output (subS env.output_size 1))] }]
  | _ => []

/-- Loop `k` with the statements around it. -/
def benchmark (env : Env) (rows features k : Nat) : Step :=
  seq ((before_loop env k).map lift ++ [config_loop env rows features k]
    ++ (after_loop env k).map lift)

/-- The label of row `k` of the table. -/
def label : Nat → String
  | 0 => "FIL-Dense"
  | 1 => "FIL-Sparse"
  | 2 => "H2"
  | 3 => "H4"
  | 4 => "H8"
  | 5 => "H16"
  | 6 => "H32"
  | _ => "H3-CPU"

/-- The lines written after the last loop: the two totals, the header and the
eight rows `batch_timings[0]` to `batch_timings[7]`. -/
def report_lines (env : Env) (rows : Nat) (bt : List (List Nat)) : List Line :=
  [.title,
   .elapsed (microseconds (env.clock (.line 147)) (env.clock (.line 162)))
            (microseconds (env.clock (.line 189)) (env.clock (.line 213))),
   .header (batch_sizes rows),
   .row (label 0) (bt.getD 0 []),
   .row (label 1) (bt.getD 1 []),
   .row (label 2) (bt.getD 2 []),
   .row (label 3) (bt.getD 3 []),
   .row (label 4) (bt.getD 4 []),
   .row (label 5) (bt.getD 5 []),
   .row (label 6) (bt.getD 6 []),
   .row (label 7) (bt.getD 7 [])]

/-- The report statements of `main`. -/
def report (env : Env) (rows : Nat) (s : State) : State :=
  { s with stdout := s.stdout ++ report_lines env rows s.batch_timings }

/-- The variables of `main` when the first loop starts. -/
def init (env : Env) (buffer : List float32) : State :=
  { buffer := buffer
    batch_timings := List.replicate 8 []
    gpu_out_buffer := device_buffer (mulS (mulS 2 env.output_size) 4)
    fil_output := List.replicate (mulS 2 env.output_size) .zero
    her_output := []
    output := List.replicate env.output_size .zero
    stdout := []
    trace := [] }

/-- The statements of `main` from the first loop on. -/
def loops (env : Env) (rows features : Nat) : List Step :=
  (List.range 8).map (benchmark env rows features) ++ [lift (report env rows)]

/-- The function `main` once the four arguments are parsed, on the bytes `file`
of the data file: the dataset is loaded, `out_cols = output.size() / input.rows`
is computed, then the eight loops run in source order, then the report is
written. The loops address the dataset through the views of `cur_input`. -/
def main (env : Env) (file : List Nat) (rows features : Nat) : Res :=
  match divS env.output_size rows with
  | .error e => .error (e, init env (load_array file rows features))
  | .ok _ => seq (loops env rows features) (init env (load_array file rows features))

/-- An environment for examples, for a dataset of `rows` rows: no predict call
throws, pass `i` of loop `k` takes `18 * k + i + 1` microseconds, the FIL
models give two outputs per row and the other engines one. -/
def sample_env (rows : Nat) : Env :=
  { clock := fun site =>
      match site with
      | .line n => 1000 * (n : Int)
      | .batch_start _ _ => 0
      | .batch_end k i => 1000 * ((18 * k + i + 1 : Nat) : Int) + 999
    predict_throws := fun _ _ _ => false
    num_outputs := fun k => if k < 2 then 2 else 1
    output_size := rows }

/-- The environment `sample_env` in which the predict call on sub-range `1` of
pass `1` of loop `2` throws. -/
def faulty_env (rows : Nat) : Env :=
  { sample_env rows with predict_throws := fun k i j => k == 2 && i == 1 && j == 1 }

/-! ## The run when no predict call throws -/

/-- The batch count as a natural number. -/
def nbatches (rows batch : Nat) : Nat :=
  rows / batch + (if rows % batch != 0 then 1 else 0)

/-- The batch count of pass `i`, `0` when it is not defined. -/
def batch_count (rows i : Nat) : Nat :=
  match total_batches rows (batch_at rows i) with
  | .ok total => total
  | .error _ => 0

/-- No predict call that the driver reaches throws. -/
def Quiet (env : Env) (rows : Nat) : Prop :=
  ∀ k i j, k < 8 → i < (batch_sizes rows).length → j < batch_count rows i →
    env.predict_throws k i j = false

/-- Pure statements in sequence. -/
def run_all (fs : List (State → State)) (s : State) : State :=
  fs.foldl (fun s f => f s) s

/-- The predict events of the iterations `js` of an inner loop. -/
def predict_events (rows features k i batch : Nat) (js : List Nat) : List Event :=
  js.map (fun j => Event.predict k i j (runner k) (cur_input rows features batch j) 0)

/-- An output buffer after the iterations `js` of an inner loop of loop `k`. -/
def stored (env : Env) (rows features k batch : Nat) (js : List Nat) (buf : List Cell) :
    List Cell :=
  js.foldl (fun b j => write b (cells k (cur_input rows features batch j)
    (out_buf_size (cur_input rows features batch j) (env.num_outputs k)))) buf

/-- The state after the iterations `js` of the inner loop of pass `i`. -/
def after_calls (env : Env) (rows features k i batch : Nat) (js : List Nat) (s : State) :
    State :=
  { s with
    trace := s.trace ++ predict_events rows features k i batch js
    gpu_out_buffer :=
      if on_gpu k then stored env rows features k batch js s.gpu_out_buffer
      else s.gpu_out_buffer
    output :=
      if on_gpu k then s.output else stored env rows features k batch js s.output }

/-- The events of pass `i` of loop `k` when it has `total` sub-ranges. -/
def pass_events (env : Env) (rows features k i total : Nat) : List Event :=
  [Event.now (.batch_start k i)]
    ++ predict_events rows features k i (batch_at rows i) (List.range total)
    ++ (if on_gpu k then [Event.sync k i] else [])
    ++ [Event.now (.batch_end k i), Event.push_back k i (sample env k i)]

/-- An output buffer after the passes `is` of loop `k`. -/
def stored_passes (env : Env) (rows features k : Nat) (is : List Nat) (buf : List Cell) :
    List Cell :=
  is.foldl (fun b i =>
    stored env rows features k (batch_at rows i) (List.range (batch_count rows i)) b) buf

/-- The state after the passes `is` of loop `k`. -/
def after_passes (env : Env) (rows features k : Nat) (is : List Nat) (s : State) : State :=
  { s with
    trace := s.trace
      ++ is.flatMap (fun i => pass_events env rows features k i (batch_count rows i))
    batch_timings := is.foldl (fun bt i => push_back bt k (sample env k i)) s.batch_timings
    gpu_out_buffer :=
      if on_gpu k then stored_passes env rows features k is s.gpu_out_buffer
      else s.gpu_out_buffer
    output :=
      if on_gpu k then s.output else stored_passes env rows features k is s.output }

/-- The events of the statements before loop `k`. -/
def before_events : Nat → List Event
  | 0 => [.now (.line 147)]
  | 1 => [.now (.line 168)]
  | 2 => [.now (.line 185), .now (.line 189)]
  | 7 => [.now (.line 312)]
  | _ => []

/-- The events of the statements after loop `k`. -/
def after_events : Nat → List Event
  | 0 => [.now (.line 162), .memcpy_to_host 0]
  | 1 => [.now (.line 183)]
  | 2 => [.now (.line 213), .memcpy_to_host 2]
  | 7 => [.now (.line 335)]
  | _ => []

/-- The samples of loop `k`, one per entry of `batch_sizes`. -/
def samples (env : Env) (rows k : Nat) : List Nat :=
  (List.range (batch_sizes rows).length).map (sample env k)

/-- The events of loop `k` and the statements around it. -/
def benchmark_events (env : Env) (rows features k : Nat) : List Event :=
  before_events k
    ++ (List.range (batch_sizes rows).length).flatMap
        (fun i => pass_events env rows features k i (batch_count rows i))
    ++ after_events k

/-- The state after loop `k` and the statements around it. -/
def after_benchmark (env : Env) (rows features k : Nat) (s : State) : State :=
  run_all (after_loop env k)
    (after_passes env rows features k (List.range (batch_sizes rows).length)
      (run_all (before_loop env k) s))

/-- The state after the loops `ks`. -/
def after_benchmarks (env : Env) (rows features : Nat) (ks : List Nat) (s : State) : State :=
  ks.foldl (fun s k => after_benchmark env rows features k s) s

/-- Whether an event belongs to pass `i` of loop `k`. -/
def of_pass (k i : Nat) : Event → Bool
  | .now (.batch_start k' i') => k' == k && i' == i
  | .now (.batch_end k' i') => k' == k && i' == i
  | .predict k' i' _ _ _ _ => k' == k && i' == i
  | .sync k' i' => k' == k && i' == i
  | .push_back k' i' _ => k' == k && i' == i
  | _ => false

/-- The state in which the run ends when the predict call on sub-range `j` of
pass `i` of loop `k` throws and `s` is the state after the loops before `k`. -/
def fail_state (env : Env) (rows features k i j : Nat) (s : State) : State :=
  emit (.predict k i j (runner k) (cur_input rows features (batch_at rows i) j) 0)
    (after_calls env rows features k i (batch_at rows i) (List.range j)
      (emit (.now (.batch_start k i))
        (after_passes env rows features k (List.range i)
          (run_all (before_loop env k) s))))

/-- The call `(k', i', j')` comes before the call `(k, i, j)` in program order. -/
def Earlier (k' i' j' k i j : Nat) : Prop :=
  k' < k ∨ (k' = k ∧ (i' < i ∨ (i' = i ∧ j' < j)))

/-- The predict call on sub-range `j` of pass `i` of loop `k` is the first one
that throws. -/
def FirstThrow (env : Env) (rows k i j : Nat) : Prop :=
  k < 8 ∧ i < (batch_sizes rows).length ∧ j < batch_count rows i ∧
  env.predict_throws k i j = true ∧
  ∀ k' i' j', k' < 8 → i' < (batch_sizes rows).length → j' < batch_count rows i' →
    Earlier k' i' j' k i j → env.predict_throws k' i' j' = false

/-! ## Arithmetic of the partition -/

theorem mulS_eq {a b : Nat} (h : a * b < SIZE) : mulS a b = a * b :=
  Nat.mod_eq_of_lt h

theorem subS_eq {a b : Nat} (ha : a < SIZE) (hb : b ≤ a) : subS a b = a - b := by
  unfold subS
  have hb2 : b < SIZE := lt_of_le_of_lt hb ha
  rw [Nat.mod_eq_of_lt hb2]
  have : a + SIZE - b = (a - b) + SIZE := by omega
  rw [this, Nat.add_mod_right]
  exact Nat.mod_eq_of_lt (by omega)

theorem nbatches_le {rows batch : Nat} (hr : 0 < rows) (hb : 0 < batch) :
    nbatches rows batch ≤ rows := by
  unfold nbatches
  by_cases h : rows % batch = 0
  · simp [h]
    exact Nat.div_le_self rows batch
  · simp [h]
    have h1 : batch ≠ 1 := by
      intro h1; exact h (by rw [h1]; exact Nat.mod_one rows)
    have h2 : 2 ≤ batch := by omega
    have := Nat.div_add_mod rows batch
    have h3 : rows / batch * 2 ≤ batch * (rows / batch) := by
      rw [Nat.mul_comm]; exact Nat.mul_le_mul_right _ h2
    by_cases h4 : rows / batch = 0
    · omega
    · omega

theorem total_batches_eq {rows batch : Nat} (hr : 0 < rows) (hrs : rows < SIZE)
    (hb : 0 < batch) : total_batches rows batch = .ok (nbatches rows batch) := by
  have hle := nbatches_le hr hb
  unfold total_batches addS
  rw [if_neg (by omega)]
  have : (rows / batch + if (rows % batch != 0) = true then 1 else 0) = nbatches rows batch := rfl
  rw [this, Nat.mod_eq_of_lt (by omega)]

/-- Every index below the batch count starts strictly inside the dataset. -/
theorem mul_lt_of_lt_nbatches {rows batch j : Nat} (hb : 0 < batch)
    (hj : j < nbatches rows batch) : j * batch < rows := by
  unfold nbatches at hj
  have hdm := Nat.div_add_mod rows batch
  have hml := Nat.mod_lt rows hb
  by_cases h : rows % batch = 0
  · simp [h] at hj
    have : (j + 1) * batch ≤ rows / batch * batch := Nat.mul_le_mul_right _ hj
    have h5 : rows / batch * batch = rows := by rw [Nat.mul_comm]; omega
    have h6 : (j + 1) * batch = j * batch + batch := by ring
    omega
  · simp [h] at hj
    have : j * batch ≤ rows / batch * batch := Nat.mul_le_mul_right _ (by omega)
    have h5 : rows / batch * batch = batch * (rows / batch) := Nat.mul_comm _ _
    omega

/-- An index whose sub-range starts inside the dataset is below the batch count. -/
theorem lt_nbatches_of_mul_lt {rows batch j : Nat} (hb : 0 < batch)
    (hj : j * batch < rows) : j < nbatches rows batch := by
  unfold nbatches
  have hdm := Nat.div_add_mod rows batch
  have hml := Nat.mod_lt rows hb
  have hjd : j ≤ rows / batch := by
    rw [Nat.le_div_iff_mul_le hb]; omega
  by_cases h : rows % batch = 0
  · simp [h]
    rcases Nat.lt_or_ge j (rows / batch) with h1 | h1
    · exact h1
    · have : j = rows / batch := by omega
      subst this
      have h5 : rows / batch * batch = batch * (rows / batch) := Nat.mul_comm _ _
      omega
  · simp [h]; omega

theorem sub_range_eq {rows batch j : Nat} (hrs : rows < SIZE) (hb : 0 < batch)
    (hj : j < nbatches rows batch) :
    sub_range rows batch j = (j * batch, min batch (rows - j * batch)) := by
  have h1 := mul_lt_of_lt_nbatches hb hj
  unfold sub_range
  rw [mulS_eq (by omega), subS_eq hrs (by omega)]

theorem batch_plan_eq {rows batch : Nat} (hr : 0 < rows) (hrs : rows < SIZE)
    (hb : 0 < batch) :
    batch_plan rows batch
      = .ok ((List.range (nbatches rows batch)).map
          (fun j => (j * batch, min batch (rows - j * batch)))) := by
  unfold batch_plan
  rw [total_batches_eq hr hrs hb]
  simp only
  congr 1
  apply List.map_congr_left
  intro j hj
  exact sub_range_eq hrs hb (List.mem_range.mp hj)

/-! ## The batch plan -/

theorem nbatches_mul_ge {rows batch : Nat} (hb : 0 < batch) :
    rows ≤ nbatches rows batch * batch := by
  by_contra h
  exact absurd (lt_nbatches_of_mul_lt hb (Nat.lt_of_not_le h)) (Nat.lt_irrefl _)

theorem sum_lengths (rows batch : Nat) (hb : 0 < batch) :
    ∀ m, m ≤ nbatches rows batch →
      (((List.range m).map (fun j => (j * batch, min batch (rows - j * batch)))).map
        Prod.snd).sum = min (m * batch) rows := by
  intro m
  induction m with
  | zero => intro _; simp
  | succ m ih =>
    intro hm
    have h1 := mul_lt_of_lt_nbatches hb (Nat.lt_of_succ_le hm)
    rw [List.range_succ, List.map_append, List.map_append, List.sum_append, ih (by omega)]
    have h2 : (m + 1) * batch = m * batch + batch := by ring
    simp only [List.map_cons, List.map_nil, List.sum_cons, List.sum_nil, h2]
    omega

theorem getD_plan (rows batch n j : Nat) (hj : j < n) :
    ((List.range n).map (fun j => (j * batch, min batch (rows - j * batch)))).getD j (0, 0)
      = (j * batch, min batch (rows - j * batch)) := by
  rw [List.getD_eq_getElem _ _ (by simpa using hj)]
  simp

/-- C1: for `rows > 0` and `batch > 0` the sub-ranges generated by the driver
loop are `(j * batch, min batch (rows - j * batch))` for `j` below
`rows / batch + (rows % batch != 0)`; the first offset is `0`, each next offset
is the previous offset plus the previous length, every length is positive (so
offsets strictly increase), earlier sub-ranges end before later ones start,
every sub-range lies in `[0, rows)`, every row is in a sub-range, and the
lengths sum to `rows`. -/
theorem batch_plan_partitions (rows batch : Nat) (hr : 0 < rows) (hb : 0 < batch)
    (hrs : rows < SIZE) :
    ∃ total plan,
      total_batches rows batch = .ok total ∧ batch_plan rows batch = .ok plan ∧
      total = rows / batch + (if rows % batch = 0 then 0 else 1) ∧
      plan.length = total ∧
      (∀ j, j < total →
        plan.getD j (0, 0) = (j * batch, min batch (rows - j * batch))) ∧
      (plan.getD 0 (0, 0)).1 = 0 ∧
      (∀ j, j + 1 < total →
        (plan.getD (j + 1) (0, 0)).1 = (plan.getD j (0, 0)).1 + (plan.getD j (0, 0)).2) ∧
      (∀ j, j < total → 0 < (plan.getD j (0, 0)).2) ∧
      (∀ j1 j2, j1 < j2 → j2 < total →
        (plan.getD j1 (0, 0)).1 < (plan.getD j2 (0, 0)).1 ∧
        (plan.getD j1 (0, 0)).1 + (plan.getD j1 (0, 0)).2 ≤ (plan.getD j2 (0, 0)).1) ∧
      (∀ j, j < total → (plan.getD j (0, 0)).1 + (plan.getD j (0, 0)).2 ≤ rows) ∧
      (∀ r, r < rows → ∃ j, j < total ∧
        (plan.getD j (0, 0)).1 ≤ r ∧ r < (plan.getD j (0, 0)).1 + (plan.getD j (0, 0)).2) ∧
      (plan.map Prod.snd).sum = rows := by
  have hpos : 0 < nbatches rows batch := lt_nbatches_of_mul_lt hb (by simpa using hr)
  refine ⟨nbatches rows batch, _, total_batches_eq hr hrs hb, batch_plan_eq hr hrs hb,
    ?_, by simp, fun j hj => getD_plan rows batch _ j hj, ?_, ?_, ?_, ?_, ?_, ?_, ?_⟩
  · unfold nbatches
    by_cases h : rows % batch = 0 <;> simp [h]
  · rw [getD_plan rows batch _ 0 hpos]; simp
  · intro j hj
    have h1 := mul_lt_of_lt_nbatches hb hj
    have h2 : (j + 1) * batch = j * batch + batch := by ring
    rw [getD_plan rows batch _ (j + 1) hj, getD_plan rows batch _ j (by omega)]
    simp only
    omega
  · intro j hj
    have h1 := mul_lt_of_lt_nbatches hb hj
    rw [getD_plan rows batch _ j hj]
    simp only
    omega
  · intro j1 j2 h12 hj2
    have h1 := mul_lt_of_lt_nbatches hb hj2
    have h2 : (j1 + 1) * batch ≤ j2 * batch := Nat.mul_le_mul_right _ h12
    have h3 : (j1 + 1) * batch = j1 * batch + batch := by ring
    rw [getD_plan rows batch _ j1 (by omega), getD_plan rows batch _ j2 hj2]
    simp only
    omega
  · intro j hj
    have h1 := mul_lt_of_lt_nbatches hb hj
    rw [getD_plan rows batch _ j hj]
    simp only
    omega
  · intro r hrr
    have hdm := Nat.div_add_mod r batch
    have hml := Nat.mod_lt r hb
    have hc : r / batch * batch = batch * (r / batch) := Nat.mul_comm _ _
    have hj : r / batch < nbatches rows batch := lt_nbatches_of_mul_lt hb (by omega)
    refine ⟨r / batch, hj, ?_⟩
    rw [getD_plan rows batch _ _ hj]
    simp only
    omega
  · have := sum_lengths rows batch hb (nbatches rows batch) (Nat.le_refl _)
    rw [this]
    exact Nat.min_eq_right (nbatches_mul_ge hb)

/-- Witness of C1 at `rows = 10`, `batch = 4`. -/
theorem batch_plan_partitions_witness :
    ∃ total plan,
      total_batches 10 4 = .ok total ∧ batch_plan 10 4 = .ok plan ∧
      total = 10 / 4 + (if 10 % 4 = 0 then 0 else 1) ∧
      plan.length = total ∧
      (∀ j, j < total →
        plan.getD j (0, 0) = (j * 4, min 4 (10 - j * 4))) ∧
      (plan.getD 0 (0, 0)).1 = 0 ∧
      (∀ j, j + 1 < total →
        (plan.getD (j + 1) (0, 0)).1 = (plan.getD j (0, 0)).1 + (plan.getD j (0, 0)).2) ∧
      (∀ j, j < total → 0 < (plan.getD j (0, 0)).2) ∧
      (∀ j1 j2, j1 < j2 → j2 < total →
        (plan.getD j1 (0, 0)).1 < (plan.getD j2 (0, 0)).1 ∧
        (plan.getD j1 (0, 0)).1 + (plan.getD j1 (0, 0)).2 ≤ (plan.getD j2 (0, 0)).1) ∧
      (∀ j, j < total → (plan.getD j (0, 0)).1 + (plan.getD j (0, 0)).2 ≤ 10) ∧
      (∀ r, r < 10 → ∃ j, j < total ∧
        (plan.getD j (0, 0)).1 ≤ r ∧ r < (plan.getD j (0, 0)).1 + (plan.getD j (0, 0)).2) ∧
      (plan.map Prod.snd).sum = 10 :=
  batch_plan_partitions 10 4 (by decide) (by decide) (by decide)

/-- C2: for `rows > 0` and `batch > 0` every sub-range of the driver loop but
the last has length `batch`, the last one has length `rows % batch` when that
is not zero and `batch` otherwise, and a sub-range whose length is not `batch`
is the last one. -/
theorem batch_plan_lengths (rows batch : Nat) (hr : 0 < rows) (hb : 0 < batch)
    (hrs : rows < SIZE) :
    ∃ plan, batch_plan rows batch = .ok plan ∧ 0 < plan.length ∧
      (∀ j, j + 1 < plan.length → (plan.getD j (0, 0)).2 = batch) ∧
      (plan.getD (plan.length - 1) (0, 0)).2
        = (if rows % batch = 0 then batch else rows % batch) ∧
      (∀ j, j < plan.length → (plan.getD j (0, 0)).2 ≠ batch → j + 1 = plan.length) := by
  have hpos : 0 < nbatches rows batch := lt_nbatches_of_mul_lt hb (by simpa using hr)
  have hfull : ∀ j, j + 1 < nbatches rows batch → min batch (rows - j * batch) = batch := by
    intro j hj
    have h1 := mul_lt_of_lt_nbatches hb hj
    have h2 : (j + 1) * batch = j * batch + batch := by ring
    omega
  refine ⟨_, batch_plan_eq hr hrs hb, by simpa using hpos, ?_, ?_, ?_⟩
  · intro j hj
    simp only [List.length_map, List.length_range] at hj
    rw [getD_plan rows batch _ j (by omega)]
    exact hfull j hj
  · simp only [List.length_map, List.length_range]
    rw [getD_plan rows batch _ _ (by omega)]
    simp only
    have hdm := Nat.div_add_mod rows batch
    have hml := Nat.mod_lt rows hb
    have hc : rows / batch * batch = batch * (rows / batch) := Nat.mul_comm _ _
    by_cases h : rows % batch = 0
    · have hn : nbatches rows batch = rows / batch := by unfold nbatches; simp [h]
      have hq : 0 < rows / batch := by omega
      have h3 : (rows / batch - 1) * batch = rows / batch * batch - batch := by
        rw [Nat.sub_mul, Nat.one_mul]
      have h4 : batch ≤ rows / batch * batch := Nat.le_mul_of_pos_left _ hq
      rw [hn, if_pos h, h3]
      omega
    · have hn : nbatches rows batch = rows / batch + 1 := by unfold nbatches; simp [h]
      rw [hn, if_neg h, Nat.add_sub_cancel]
      omega
  · intro j hj hne
    simp only [List.length_map, List.length_range] at hj ⊢
    rw [getD_plan rows batch _ j hj] at hne
    by_contra hlast
    exact hne (hfull j (by omega))

/-- Witness of C2: `rows = 10`, `batch = 4` gives `[(0,4), (4,4), (8,2)]`. -/
theorem batch_plan_lengths_witness :
    batch_plan 10 4 = .ok [(0, 4), (4, 4), (8, 2)] ∧
    ∃ plan, batch_plan 10 4 = .ok plan ∧ 0 < plan.length ∧
      (∀ j, j + 1 < plan.length → (plan.getD j (0, 0)).2 = 4) ∧
      (plan.getD (plan.length - 1) (0, 0)).2 = (if 10 % 4 = 0 then 4 else 10 % 4) ∧
      (∀ j, j < plan.length → (plan.getD j (0, 0)).2 ≠ 4 → j + 1 = plan.length) :=
  ⟨rfl, batch_plan_lengths 10 4 (by decide) (by decide) (by decide)⟩

/-- C3: for `rows > 0` and `batch >= rows` the driver loop runs once, over the
single sub-range `(0, rows)`. -/
theorem batch_plan_single (rows batch : Nat) (hr : 0 < rows) (hb : rows ≤ batch)
    (hrs : rows < SIZE) :
    total_batches rows batch = .ok 1 ∧ batch_plan rows batch = .ok [(0, rows)] := by
  have hn : nbatches rows batch = 1 := by
    unfold nbatches
    rcases Nat.lt_or_ge rows batch with h | h
    · rw [Nat.div_eq_of_lt h, Nat.mod_eq_of_lt h]
      have : rows ≠ 0 := by omega
      simp [this]
    · have : batch = rows := by omega
      subst this
      rw [Nat.div_self hr, Nat.mod_self]
      simp
  have h1 := total_batches_eq hr hrs (show 0 < batch by omega)
  have h2 := batch_plan_eq hr hrs (show 0 < batch by omega)
  rw [hn] at h1 h2
  refine ⟨h1, ?_⟩
  rw [h2]
  have h3 : List.range 1 = [0] := rfl
  rw [h3]
  simp [Nat.min_eq_right hb]

/-- Witness of C3: `rows = 10` with `batch = 10` and with `batch = 20` both give
`[(0,10)]`. -/
theorem batch_plan_single_witness :
    (total_batches 10 10 = .ok 1 ∧ batch_plan 10 10 = .ok [(0, 10)]) ∧
    (total_batches 10 20 = .ok 1 ∧ batch_plan 10 20 = .ok [(0, 10)]) :=
  ⟨batch_plan_single 10 10 (by decide) (by decide) (by decide),
   batch_plan_single 10 20 (by decide) (by decide) (by decide)⟩

/-! ## Sequences of statements -/

theorem seq_append (fs gs : List Step) (s : State) :
    seq (fs ++ gs) s = match seq fs s with
      | .ok s1 => seq gs s1
      | .error e => .error e := by
  induction fs generalizing s with
  | nil => rfl
  | cons f fs ih =>
    simp only [List.cons_append, seq]
    cases f s with
    | ok s1 => exact ih s1
    | error e => rfl

theorem seq_lifts (fs : List (State → State)) (gs : List Step) (s : State) :
    seq (fs.map lift ++ gs) s = seq gs (run_all fs s) := by
  induction fs generalizing s with
  | nil => rfl
  | cons f fs ih =>
    simp only [List.map_cons, List.cons_append, seq, lift, run_all, List.foldl_cons]
    exact ih (f s)

/-! ## The inner loop -/

theorem calls_ok (env : Env) (rows features k i batch : Nat) (js : List Nat)
    (h : ∀ j ∈ js, env.predict_throws k i j = false) (s : State) :
    seq (js.map (call env rows features k i batch)) s
      = .ok (after_calls env rows features k i batch js s) := by
  induction js generalizing s with
  | nil =>
    simp [seq, after_calls, predict_events, stored]
  | cons j js ih =>
    have hj : env.predict_throws k i j = false := h j (List.mem_cons_self _ _)
    simp only [List.map_cons, seq, call, hj, Bool.false_eq_true, if_false]
    rw [ih (fun j' hj' => h j' (List.mem_cons_of_mem _ hj'))]
    congr 1
    by_cases hg : on_gpu k = true <;>
      simp [after_calls, predict_events, stored, store, emit, hg]

/-! ## Passes and loops -/

theorem batch_count_eq {rows i total : Nat}
    (ht : total_batches rows (batch_at rows i) = .ok total) : batch_count rows i = total := by
  simp [batch_count, ht]

theorem pass_ok (env : Env) (rows features k i total : Nat)
    (ht : total_batches rows (batch_at rows i) = .ok total)
    (h : ∀ j, j < total → env.predict_throws k i j = false) (s : State) :
    pass env rows features k i s = .ok (after_passes env rows features k [i] s) := by
  have hc := calls_ok env rows features k i (batch_at rows i) (List.range total)
    (fun j hj => h j (List.mem_range.mp hj))
  simp only [pass, ht, pass_body, List.append_assoc]
  rw [show [lift (emit (Event.now (Site.batch_start k i)))]
      = [emit (Event.now (Site.batch_start k i))].map lift from rfl, seq_lifts, seq_append, hc]
  by_cases hg : on_gpu k = true <;>
    simp [seq, lift, run_all, after_passes, after_calls, pass_events, record, emit,
      batch_count_eq ht, stored_passes, hg]

theorem after_passes_cons (env : Env) (rows features k i : Nat) (is : List Nat) (s : State) :
    after_passes env rows features k is (after_passes env rows features k [i] s)
      = after_passes env rows features k (i :: is) s := by
  by_cases hg : on_gpu k = true <;>
    simp [after_passes, stored_passes, hg]

theorem passes_ok (env : Env) (rows features k : Nat) (is : List Nat)
    (ht : ∀ i ∈ is, total_batches rows (batch_at rows i) = .ok (batch_count rows i))
    (h : ∀ i ∈ is, ∀ j, j < batch_count rows i → env.predict_throws k i j = false)
    (s : State) :
    seq (is.map (pass env rows features k)) s
      = .ok (after_passes env rows features k is s) := by
  induction is generalizing s with
  | nil =>
    by_cases hg : on_gpu k = true <;> simp [seq, after_passes, stored_passes, hg]
  | cons i is ih =>
    simp only [List.map_cons, seq]
    rw [pass_ok env rows features k i _ (ht i (List.mem_cons_self _ _))
      (h i (List.mem_cons_self _ _))]
    simp only
    rw [ih (fun i' hi' => ht i' (List.mem_cons_of_mem _ hi'))
      (fun i' hi' => h i' (List.mem_cons_of_mem _ hi')), after_passes_cons]

theorem batch_at_pos {rows i : Nat} (hr : 0 < rows) (hi : i < (batch_sizes rows).length) :
    0 < batch_at rows i := by
  simp only [batch_sizes, List.length_cons, List.length_nil] at hi
  unfold batch_at batch_sizes
  interval_cases i <;> simp [hr]

theorem total_batches_at {rows i : Nat} (hr : 0 < rows) (hrs : rows < SIZE)
    (hi : i < (batch_sizes rows).length) :
    total_batches rows (batch_at rows i) = .ok (batch_count rows i) := by
  have h := total_batches_eq hr hrs (batch_at_pos hr hi)
  rw [batch_count_eq h]
  exact h

theorem benchmark_ok (env : Env) (rows features k : Nat) (hr : 0 < rows) (hrs : rows < SIZE)
    (hq : ∀ i j, i < (batch_sizes rows).length → j < batch_count rows i →
      env.predict_throws k i j = false) (s : State) :
    benchmark env rows features k s = .ok (after_benchmark env rows features k s) := by
  unfold benchmark after_benchmark
  rw [List.append_assoc, seq_lifts]
  simp only [List.cons_append, List.nil_append, seq]
  have hc : config_loop env rows features k (run_all (before_loop env k) s)
      = .ok (after_passes env rows features k (List.range (batch_sizes rows).length)
          (run_all (before_loop env k) s)) :=
    passes_ok env rows features k _
      (fun _ hi => total_batches_at hr hrs (List.mem_range.mp hi))
      (fun i hi j hj => hq i j (List.mem_range.mp hi) hj) _
  rw [hc]
  simp only
  have h := seq_lifts (after_loop env k) []
    (after_passes env rows features k (List.range (batch_sizes rows).length)
      (run_all (before_loop env k) s))
  rw [List.append_nil] at h
  exact h

theorem benchmarks_ok (env : Env) (rows features : Nat) (hr : 0 < rows) (hrs : rows < SIZE)
    (ks : List Nat)
    (hq : ∀ k ∈ ks, ∀ i j, i < (batch_sizes rows).length → j < batch_count rows i →
      env.predict_throws k i j = false) (s : State) :
    seq (ks.map (benchmark env rows features)) s
      = .ok (after_benchmarks env rows features ks s) := by
  induction ks generalizing s with
  | nil => rfl
  | cons k ks ih =>
    simp only [List.map_cons, seq]
    rw [benchmark_ok env rows features k hr hrs (hq k (List.mem_cons_self _ _))]
    simp only
    rw [ih (fun k' hk' => hq k' (List.mem_cons_of_mem _ hk'))]
    rfl

theorem main_pos (env : Env) (file : List Nat) (rows features : Nat) (hr : 0 < rows) :
    main env file rows features
      = seq (loops env rows features) (init env (load_array file rows features)) := by
  have hne : rows ≠ 0 := by omega
  simp only [main, divS, if_neg hne]

theorem main_zero_rows (env : Env) (file : List Nat) (features : Nat) :
    main env file 0 features
      = .error (.DivisionByZero, init env (load_array file 0 features)) := rfl

theorem main_ok (env : Env) (file : List Nat) (rows features : Nat) (hr : 0 < rows)
    (hrs : rows < SIZE) (hq : Quiet env rows) :
    main env file rows features
      = .ok (report env rows (after_benchmarks env rows features (List.range 8)
          (init env (load_array file rows features)))) := by
  rw [main_pos env file rows features hr]
  unfold loops
  rw [seq_append, benchmarks_ok env rows features hr hrs _
    (fun k hk i j hi hj => hq k i j (List.mem_range.mp hk) hi hj)]
  rfl

/-! ## The fields after a loop -/

theorem before_loop_batch_timings (env : Env) (k : Nat) (s : State) :
    (run_all (before_loop env k) s).batch_timings = s.batch_timings := by
  rcases k with _ | _ | _ | _ | _ | _ | _ | _ | k <;>
    simp [before_loop, run_all, emit]

theorem after_loop_batch_timings (env : Env) (k : Nat) (s : State) :
    (run_all (after_loop env k) s).batch_timings = s.batch_timings := by
  rcases k with _ | _ | _ | _ | _ | _ | _ | _ | k <;>
    simp [after_loop, run_all, emit]

theorem before_loop_trace (env : Env) (k : Nat) (s : State) :
    (run_all (before_loop env k) s).trace = s.trace ++ before_events k := by
  rcases k with _ | _ | _ | _ | _ | _ | _ | _ | k <;>
    simp [before_loop, before_events, run_all, emit]

theorem after_loop_trace (env : Env) (k : Nat) (s : State) :
    (run_all (after_loop env k) s).trace = s.trace ++ after_events k := by
  rcases k with _ | _ | _ | _ | _ | _ | _ | _ | k <;>
    simp [after_loop, after_events, run_all, emit]

theorem before_loop_stdout (env : Env) (k : Nat) (s : State) :
    (run_all (before_loop env k) s).stdout = s.stdout := by
  rcases k with _ | _ | _ | _ | _ | _ | _ | _ | k <;>
    simp [before_loop, run_all, emit]

theorem push_back_fold (k : Nat) (f : Nat → Nat) (is : List Nat) (bt : List (List Nat))
    (hk : k < bt.length) :
    is.foldl (fun bt i => push_back bt k (f i)) bt
      = bt.set k (bt.getD k [] ++ is.map f) := by
  induction is generalizing bt with
  | nil =>
    simp only [List.foldl_nil, List.map_nil, List.append_nil]
    apply List.ext_getElem?
    intro n
    by_cases hn : k = n
    · subst hn
      simp [List.getElem?_set, hk, List.getD_eq_getElem?_getD, List.getElem?_eq_getElem hk]
    · simp [List.getElem?_set, hn]
  | cons i is ih =>
    rw [List.foldl_cons, ih _ (by simpa [push_back] using hk)]
    simp only [push_back, List.set_set, List.map_cons]
    congr 1
    simp [List.getD_eq_getElem?_getD, List.getElem?_set, hk]

theorem after_benchmark_batch_timings (env : Env) (rows features k : Nat) (s : State)
    (hk : k < s.batch_timings.length) :
    (after_benchmark env rows features k s).batch_timings
      = s.batch_timings.set k (s.batch_timings.getD k [] ++ samples env rows k) := by
  unfold after_benchmark
  rw [after_loop_batch_timings]
  simp only [after_passes]
  rw [before_loop_batch_timings, push_back_fold _ _ _ _ hk]
  rfl

theorem after_benchmark_trace (env : Env) (rows features k : Nat) (s : State) :
    (after_benchmark env rows features k s).trace
      = s.trace ++ benchmark_events env rows features k := by
  unfold after_benchmark benchmark_events
  rw [after_loop_trace]
  simp only [after_passes]
  rw [before_loop_trace]
  simp only [List.append_assoc]

theorem after_benchmarks_trace (env : Env) (rows features : Nat) (ks : List Nat) (s : State) :
    (after_benchmarks env rows features ks s).trace
      = s.trace ++ ks.flatMap (benchmark_events env rows features) := by
  induction ks generalizing s with
  | nil => simp [after_benchmarks]
  | cons k ks ih =>
    simp only [after_benchmarks, List.foldl_cons] at ih ⊢
    rw [ih, after_benchmark_trace]
    simp

theorem after_benchmarks_batch_timings (env : Env) (rows features : Nat) (ks : List Nat)
    (s : State) (h : ∀ k ∈ ks, k < s.batch_timings.length) :
    (after_benchmarks env rows features ks s).batch_timings
      = ks.foldl (fun bt k => bt.set k (bt.getD k [] ++ samples env rows k))
          s.batch_timings := by
  induction ks generalizing s with
  | nil => rfl
  | cons k ks ih =>
    simp only [after_benchmarks, List.foldl_cons] at ih ⊢
    have hk := after_benchmark_batch_timings env rows features k s (h k (List.mem_cons_self _ _))
    rw [ih, hk]
    intro k' hk'
    rw [hk, List.length_set]
    exact h k' (List.mem_cons_of_mem _ hk')

theorem range_eight : List.range 8 = [0, 1, 2, 3, 4, 5, 6, 7] := rfl

/-- After the eight loops, row `k` of `batch_timings` holds the samples of loop `k`. -/
theorem all_batch_timings (env : Env) (rows features : Nat) (buffer : List float32) :
    (after_benchmarks env rows features (List.range 8) (init env buffer)).batch_timings
      = [samples env rows 0, samples env rows 1, samples env rows 2, samples env rows 3,
         samples env rows 4, samples env rows 5, samples env rows 6, samples env rows 7] := by
  rw [after_benchmarks_batch_timings]
  · simp [range_eight, init, List.replicate]
  · intro k hk
    simpa [init] using hk

/-- A line `WH: a, b, c`. -/
theorem after_benchmark_stdout_WH (env : Env) (rows features k : Nat) (s : State)
    (h : ∀ l ∈ s.stdout, ∃ a b c, l = Line.WH a b c) :
    ∀ l ∈ (after_benchmark env rows features k s).stdout, ∃ a b c, l = Line.WH a b c := by
  rcases k with _ | _ | _ | _ | _ | _ | _ | _ | k <;>
    simp only [after_benchmark, before_loop, after_loop, run_all, after_passes, emit,
      List.foldl_cons, List.foldl_nil] <;>
    first
    | exact h
    | (intro l hl
       rcases List.mem_append.mp hl with hl | hl
       · exact h l hl
       · exact ⟨_, _, _, List.mem_singleton.mp hl⟩)

theorem after_benchmarks_stdout_WH (env : Env) (rows features : Nat) (ks : List Nat)
    (s : State) (h : ∀ l ∈ s.stdout, ∃ a b c, l = Line.WH a b c) :
    ∀ l ∈ (after_benchmarks env rows features ks s).stdout, ∃ a b c, l = Line.WH a b c := by
  induction ks generalizing s with
  | nil => exact h
  | cons k ks ih =>
    simp only [after_benchmarks, List.foldl_cons] at ih ⊢
    exact ih _ (after_benchmark_stdout_WH env rows features k s h)

/-! ## Runs that end in a failure -/

theorem range_split_gt {k n : Nat} (h : k < n) :
    ∃ rest, List.range n = List.range k ++ k :: rest ∧ ∀ x ∈ rest, k < x ∧ x < n := by
  induction n with
  | zero => omega
  | succ n ih =>
    rw [List.range_succ]
    rcases Nat.lt_or_ge k n with h1 | h1
    · obtain ⟨rest, hrest, hgt⟩ := ih h1
      refine ⟨rest ++ [n], by rw [hrest]; simp, ?_⟩
      intro x hx
      rcases List.mem_append.mp hx with hx | hx
      · have := hgt x hx
        omega
      · rw [List.mem_singleton] at hx
        omega
    · have : k = n := by omega
      subst this
      exact ⟨[], rfl, fun x hx => by cases hx⟩

theorem seq_fail (pre post : List Step) (f : Step) (s s1 : State) (e : Failure × State)
    (h1 : seq pre s = .ok s1) (h2 : f s1 = .error e) :
    seq (pre ++ f :: post) s = .error e := by
  rw [seq_append, h1]
  simp only [seq, h2]

theorem calls_fail (env : Env) (rows features k i batch total j : Nat) (hj : j < total)
    (h : ∀ j', j' < j → env.predict_throws k i j' = false)
    (ht : env.predict_throws k i j = true) (s : State) :
    seq ((List.range total).map (call env rows features k i batch)) s
      = .error (.ExecutionError k i j,
          emit (.predict k i j (runner k) (cur_input rows features batch j) 0)
            (after_calls env rows features k i batch (List.range j) s)) := by
  obtain ⟨rest, hrest, _⟩ := range_split_gt hj
  rw [hrest, List.map_append, List.map_cons]
  apply seq_fail _ _ _ _ _ _
    (calls_ok env rows features k i batch (List.range j)
      (fun j' hj' => h j' (List.mem_range.mp hj')) s)
  simp only [call, ht, if_true]

theorem pass_fail (env : Env) (rows features k i total j : Nat)
    (htot : total_batches rows (batch_at rows i) = .ok total) (hj : j < total)
    (h : ∀ j', j' < j → env.predict_throws k i j' = false)
    (ht : env.predict_throws k i j = true) (s : State) :
    pass env rows features k i s
      = .error (.ExecutionError k i j,
          emit (.predict k i j (runner k) (cur_input rows features (batch_at rows i) j) 0)
            (after_calls env rows features k i (batch_at rows i) (List.range j)
              (emit (.now (.batch_start k i)) s))) := by
  simp only [pass, htot, pass_body, List.append_assoc]
  rw [show [lift (emit (Event.now (Site.batch_start k i)))]
      = [emit (Event.now (Site.batch_start k i))].map lift from rfl, seq_lifts, seq_append,
    calls_fail env rows features k i (batch_at rows i) total j hj h ht]
  rfl

theorem batch_count_zero (i : Nat) : batch_count 0 i = 0 := by
  by_cases hi : i < 18
  · interval_cases i <;> rfl
  · have h : batch_at 0 i = 0 := by
      unfold batch_at
      rw [List.getD_eq_default]
      simp only [batch_sizes, List.length_cons, List.length_nil]
      omega
    simp [batch_count, h, total_batches]

theorem rows_pos_of_lt_batch_count {rows i j : Nat} (h : j < batch_count rows i) :
    0 < rows := by
  rcases Nat.eq_zero_or_pos rows with h0 | h0
  · subst h0
    rw [batch_count_zero] at h
    omega
  · exact h0

theorem config_loop_fail (env : Env) (rows features k i j : Nat) (hrs : rows < SIZE)
    (hf : FirstThrow env rows k i j) (s : State) :
    config_loop env rows features k s
      = .error (.ExecutionError k i j,
          emit (.predict k i j (runner k) (cur_input rows features (batch_at rows i) j) 0)
            (after_calls env rows features k i (batch_at rows i) (List.range j)
              (emit (.now (.batch_start k i))
                (after_passes env rows features k (List.range i) s)))) := by
  obtain ⟨hk, hi, hj, ht, hfirst⟩ := hf
  have hr := rows_pos_of_lt_batch_count hj
  obtain ⟨rest, hrest, _⟩ := range_split_gt hi
  unfold config_loop
  rw [hrest, List.map_append, List.map_cons]
  apply seq_fail _ _ _ _ _ _
    (passes_ok env rows features k (List.range i)
      (fun i' hi' => total_batches_at hr hrs (by have := List.mem_range.mp hi'; omega))
      (fun i' hi' j' hj' => hfirst k i' j' hk (by have := List.mem_range.mp hi'; omega) hj'
        (Or.inr ⟨rfl, Or.inl (List.mem_range.mp hi')⟩)) s)
  exact pass_fail env rows features k i _ j (total_batches_at hr hrs hi) hj
    (fun j' hj' => hfirst k i j' hk hi (by omega) (Or.inr ⟨rfl, Or.inr ⟨rfl, hj'⟩⟩)) ht _

theorem benchmark_fail (env : Env) (rows features k i j : Nat) (hrs : rows < SIZE)
    (hf : FirstThrow env rows k i j) (s : State) :
    benchmark env rows features k s
      = .error (.ExecutionError k i j, fail_state env rows features k i j s) := by
  unfold benchmark fail_state
  rw [List.append_assoc, seq_lifts]
  simp only [List.cons_append, List.nil_append, seq]
  rw [config_loop_fail env rows features k i j hrs hf]

theorem main_fail (env : Env) (file : List Nat) (rows features k i j : Nat)
    (hrs : rows < SIZE) (hf : FirstThrow env rows k i j) :
    main env file rows features
      = .error (.ExecutionError k i j,
          fail_state env rows features k i j
            (after_benchmarks env rows features (List.range k)
              (init env (load_array file rows features)))) := by
  have hr := rows_pos_of_lt_batch_count hf.2.2.1
  obtain ⟨rest, hrest, _⟩ := range_split_gt hf.1
  rw [main_pos env file rows features hr]
  unfold loops
  rw [hrest, List.map_append, List.map_cons, List.append_assoc, List.cons_append]
  apply seq_fail _ _ _ _ _ _ _ (benchmark_fail env rows features k i j hrs hf _)
  obtain ⟨hk, _, _, _, hfirst⟩ := hf
  exact benchmarks_ok env rows features hr hrs _
    (fun k' hk' i' j' hi' hj' =>
      hfirst k' i' j' (by have := List.mem_range.mp hk'; omega) hi' hj'
        (Or.inl (List.mem_range.mp hk'))) _

theorem fail_state_trace (env : Env) (rows features k i j : Nat) (s : State) :
    (fail_state env rows features k i j s).trace
      = s.trace ++ before_events k
        ++ (List.range i).flatMap
            (fun i' => pass_events env rows features k i' (batch_count rows i'))
        ++ [Event.now (.batch_start k i)]
        ++ (List.range (j + 1)).map
            (fun j' => Event.predict k i j' (runner k)
              (cur_input rows features (batch_at rows i) j') 0) := by
  simp only [fail_state, emit, after_calls, after_passes, before_loop_trace, predict_events,
    List.range_succ, List.map_append, List.map_cons, List.map_nil, List.append_assoc]

theorem fail_state_stdout (env : Env) (rows features k i j : Nat) (s : State) :
    (fail_state env rows features k i j s).stdout = s.stdout := by
  simp only [fail_state, emit, after_calls, after_passes, before_loop_stdout]

theorem fail_state_batch_timings (env : Env) (rows features k i j : Nat) (s : State)
    (hk : k < s.batch_timings.length) :
    (fail_state env rows features k i j s).batch_timings
      = s.batch_timings.set k (s.batch_timings.getD k [] ++ (List.range i).map (sample env k)) := by
  simp only [fail_state, emit, after_calls, after_passes]
  rw [before_loop_batch_timings, push_back_fold _ _ _ _ hk]

/-- Rows of `batch_timings` when loop `k` stops after `i` passes. -/
theorem stopped_batch_timings (env : Env) (rows features k i : Nat) (hk : k < 8)
    (buffer : List float32) :
    ((after_benchmarks env rows features (List.range k) (init env buffer)).batch_timings).set k
        (((after_benchmarks env rows features (List.range k) (init env buffer)).batch_timings).getD
          k [] ++ (List.range i).map (sample env k))
      = (List.range 8).map (fun k' =>
          if k' < k then samples env rows k'
          else if k' = k then (List.range i).map (sample env k) else []) := by
  rw [after_benchmarks_batch_timings]
  · interval_cases k <;> simp [List.range_succ, init, List.replicate]
  · intro k' hk'
    have := List.mem_range.mp hk'
    simp only [init, List.length_replicate]
    omega

/-! ## Runs that return -/

theorem seq_ok_mem (fs : List Step) (s s' : State) (h : seq fs s = .ok s') :
    ∀ f ∈ fs, ∃ s1 s2, f s1 = .ok s2 := by
  induction fs generalizing s with
  | nil => intro f hf; cases hf
  | cons g fs ih =>
    intro f hf
    simp only [seq] at h
    cases hg : g s with
    | error e => rw [hg] at h; cases h
    | ok s1 =>
      rw [hg] at h
      rcases List.mem_cons.mp hf with hf | hf
      · subst hf; exact ⟨s, s1, hg⟩
      · exact ih s1 h f hf

theorem pass_ok_imp (env : Env) (rows features k i : Nat) (s1 s2 : State)
    (h : pass env rows features k i s1 = .ok s2) :
    ∃ total, total_batches rows (batch_at rows i) = .ok total ∧
      ∀ j, j < total → env.predict_throws k i j = false := by
  unfold pass at h
  cases ht : total_batches rows (batch_at rows i) with
  | error e => simp [ht] at h
  | ok total =>
    simp only [ht] at h
    refine ⟨total, rfl, fun j hj => ?_⟩
    obtain ⟨a, b, hab⟩ := seq_ok_mem _ _ _ h (call env rows features k i (batch_at rows i) j)
      (by
        unfold pass_body
        simp only [List.mem_append, List.mem_map, List.mem_range]
        exact Or.inl (Or.inl (Or.inr ⟨j, hj, rfl⟩)))
    unfold call at hab
    cases hthrow : env.predict_throws k i j with
    | false => rfl
    | true => simp [hthrow] at hab

theorem main_ok_imp (env : Env) (file : List Nat) (rows features : Nat) (s : State)
    (h : main env file rows features = .ok s) :
    ∀ k i, k < 8 → i < (batch_sizes rows).length →
      ∃ total, total_batches rows (batch_at rows i) = .ok total ∧
        ∀ j, j < total → env.predict_throws k i j = false := by
  intro k i hk hi
  have hr : 0 < rows := by
    rcases Nat.eq_zero_or_pos rows with h0 | h0
    · subst h0
      rw [main_zero_rows] at h
      cases h
    · exact h0
  rw [main_pos env file rows features hr] at h
  obtain ⟨a1, b1, h1⟩ := seq_ok_mem _ _ _ h (benchmark env rows features k)
    (List.mem_append.mpr (Or.inl (List.mem_map.mpr ⟨k, List.mem_range.mpr hk, rfl⟩)))
  obtain ⟨a2, b2, h2⟩ := seq_ok_mem _ _ _ h1 (config_loop env rows features k)
    (List.mem_append.mpr (Or.inl (List.mem_append.mpr (Or.inr (List.mem_singleton.mpr rfl)))))
  obtain ⟨a3, b3, h3⟩ := seq_ok_mem _ _ _ h2 (pass env rows features k i)
    (List.mem_map.mpr ⟨i, List.mem_range.mpr hi, rfl⟩)
  exact pass_ok_imp env rows features k i a3 b3 h3

theorem main_ok_rows_pos (env : Env) (file : List Nat) (rows features : Nat) (s : State)
    (h : main env file rows features = .ok s) : 0 < rows := by
  rcases Nat.eq_zero_or_pos rows with h0 | h0
  · subst h0
    rw [main_zero_rows] at h
    cases h
  · exact h0

theorem main_ok_quiet (env : Env) (file : List Nat) (rows features : Nat) (s : State)
    (h : main env file rows features = .ok s) : Quiet env rows := by
  intro k i j hk hi hj
  obtain ⟨total, ht, hq⟩ := main_ok_imp env file rows features s h k i hk hi
  rw [batch_count_eq ht] at hj
  exact hq j hj

/-- A run that returns leaves the state computed by `after_benchmarks`. -/
theorem main_ok_eq (env : Env) (file : List Nat) (rows features : Nat) (hrs : rows < SIZE)
    (s : State) (h : main env file rows features = .ok s) :
    s = report env rows (after_benchmarks env rows features (List.range 8)
          (init env (load_array file rows features))) := by
  have h2 := main_ok env file rows features (main_ok_rows_pos env file rows features s h) hrs
    (main_ok_quiet env file rows features s h)
  rw [h] at h2
  cases h2
  rfl

/-! ## Failures of the run -/

theorem to_floats_length : ∀ l : List Nat, (to_floats l).length = l.length / 4 := by
  intro l
  induction l using to_floats.induct with
  | case1 a b c d rest ih =>
    simp only [to_floats, List.length_cons, ih]
    omega
  | case2 l h =>
    have h2 : to_floats l = [] := by
      unfold to_floats
      split
      · exact absurd rfl (h _ _ _ _ _)
      · rfl
    rw [h2]
    match l, h with
    | [], _ => rfl
    | [_], _ => simp
    | [_, _], _ => simp
    | [_, _, _], _ => simp
    | a :: b :: c :: d :: rest, h => exact absurd rfl (h a b c d rest)

theorem load_array_bytes_length (got : List Nat) (size : Nat) (h : got.length ≤ 4 * size) :
    (got ++ (List.replicate (4 * size) 0).drop got.length).length = 4 * size := by
  simp only [List.length_append, List.length_drop, List.length_replicate]
  omega

theorem load_array_length (file : List Nat) (rows cols : Nat) :
    (load_array file rows cols).length = mulS rows cols := by
  have h : mulS (mulS rows cols) 4 ≤ mulS rows cols * 4 := Nat.mod_le _ _
  unfold load_array
  simp only
  rw [to_floats_length, load_array_bytes_length]
  · omega
  · split
    · rw [List.length_take]; omega
    · simp

/-- C8, as stated, fails: for `rows = 2 ^ 20`, `features = 2 ^ 44` the product
`rows * features` wraps to `0`, the dataset buffer is empty, and the view of
sub-range `0` for `batch = 1` has `2 ^ 44` elements. -/
theorem view_exceeds_wrapped_buffer :
    0 < 2 ^ 20 ∧ 0 < 1 ∧ total_batches (2 ^ 20) 1 = .ok (2 ^ 20) ∧ 0 < 2 ^ 20 ∧
    (load_array [] (2 ^ 20) (2 ^ 44)).length = 0 ∧
    in_buf_size (cur_input (2 ^ 20) (2 ^ 44) 1 0) = 2 ^ 44 ∧
    ¬ ((cur_input (2 ^ 20) (2 ^ 44) 1 0).data + in_buf_size (cur_input (2 ^ 20) (2 ^ 44) 1 0)
        ≤ (load_array [] (2 ^ 20) (2 ^ 44)).length) := by
  refine ⟨by decide, by decide, rfl, by decide, by decide, by decide, by decide⟩

/-- C8, amended: when `rows * features` fits `std::size_t`, for `rows > 0`,
`batch > 0` and every loop index `j` below the batch count, `j * batch < rows`
and neither `j * batch` nor `rows - j * batch` wraps; the view of sub-range `j`
starts at element `j * batch * features`, has `min batch (rows - j * batch)`
rows, its declared length is `rows_in_batch * features`, and it ends inside
the dataset buffer of `rows * features` floats. When `rows * num_outputs` fits
as well, the declared output length `rows_in_batch * num_outputs` is at most
`rows * num_outputs`. -/
theorem view_in_bounds (file : List Nat) (rows batch features num_outputs total j : Nat)
    (hr : 0 < rows) (hb : 0 < batch) (hfit : rows * features < SIZE)
    (hrs : rows < SIZE) (ht : total_batches rows batch = .ok total) (hj : j < total) :
    j * batch < rows ∧ mulS j batch = j * batch ∧
    subS rows (mulS j batch) = rows - j * batch ∧
    (cur_input rows features batch j).data = j * batch * features ∧
    (cur_input rows features batch j).rows = min batch (rows - j * batch) ∧
    (cur_input rows features batch j).cols = features ∧
    in_buf_size (cur_input rows features batch j)
      = (cur_input rows features batch j).rows * features ∧
    (load_array file rows features).length = rows * features ∧
    (cur_input rows features batch j).data + in_buf_size (cur_input rows features batch j)
      ≤ (load_array file rows features).length ∧
    (rows * num_outputs < SIZE →
      out_buf_size (cur_input rows features batch j) num_outputs
        = (cur_input rows features batch j).rows * num_outputs ∧
      out_buf_size (cur_input rows features batch j) num_outputs ≤ rows * num_outputs) := by
  rw [total_batches_eq hr hrs hb] at ht
  cases ht
  have h1 := mul_lt_of_lt_nbatches hb hj
  have h2 : mulS j batch = j * batch := mulS_eq (by omega)
  have h3 : subS rows (j * batch) = rows - j * batch := subS_eq hrs (by omega)
  have hle : j * batch + min batch (rows - j * batch) ≤ rows := by omega
  have hmul : (j * batch + min batch (rows - j * batch)) * features ≤ rows * features :=
    Nat.mul_le_mul_right _ hle
  rw [Nat.add_mul] at hmul
  have h4 : mulS (j * batch) features = j * batch * features := mulS_eq (by omega)
  have h5 : mulS (min batch (rows - j * batch)) features
      = min batch (rows - j * batch) * features := mulS_eq (by omega)
  have hlen : (load_array file rows features).length = rows * features := by
    rw [load_array_length, mulS_eq hfit]
  refine ⟨h1, h2, by rw [h2, h3], ?_, ?_, rfl, ?_, hlen, ?_, ?_⟩
  · simp only [cur_input, h2, h4]
  · simp only [cur_input, h2, h3]
  · simp only [cur_input, in_buf_size, h2, h3, h5]
  · simp only [cur_input, in_buf_size, h2, h3, h4, h5, hlen]
    exact hmul
  · intro hout
    have hm : min batch (rows - j * batch) * num_outputs ≤ rows * num_outputs :=
      Nat.mul_le_mul_right _ (by omega)
    have h6 : mulS (min batch (rows - j * batch)) num_outputs
        = min batch (rows - j * batch) * num_outputs := mulS_eq (by omega)
    simp only [cur_input, out_buf_size, h2, h3, h6]
    exact ⟨trivial, hm⟩

/-- Witness of the amended C8 at `rows = 10`, `batch = 4`, `features = 3`,
last sub-range. -/
theorem view_in_bounds_witness :
    2 * 4 < 10 ∧
    (cur_input 10 3 4 2).data + in_buf_size (cur_input 10 3 4 2)
      ≤ (load_array [] 10 3).length :=
  have h := view_in_bounds [] 10 4 3 1 3 2 (by decide) (by decide) (by decide) (by decide)
    rfl (by decide)
  ⟨h.1, h.2.2.2.2.2.2.2.2.1⟩

/-! ## Batch size zero -/

/-- C6: a run returns when `rows > 0` and no predict call throws, and every
run that returns has run the eight loops in the order of their rows and has
written, after the lines of sampled values, the title, the totals, the header
with the batch sizes of the sweep in sweep order, and the eight rows
`batch_timings[0]` to `batch_timings[7]`, labelled by the runner of their
loop; every such row has one entry per batch size, entry `i` being the sample
of pass `i` of that loop. -/
theorem report_table_complete (env : Env) (file : List Nat) (rows features : Nat)
    (hrs : rows < SIZE) :
    (0 < rows → Quiet env rows → ∃ s, main env file rows features = .ok s) ∧
    (List.range 8).map runner
      = [.run_fil false, .run_fil true, .run_herring3 2, .run_herring3 4, .run_herring3 8,
         .run_herring3 16, .run_herring3 32, .run_herring3_cpu 64] ∧
    (∀ s, main env file rows features = .ok s →
      s.trace = (List.range 8).flatMap (benchmark_events env rows features) ∧
      s.batch_timings.length = 8 ∧
      (∀ k, k < 8 →
        (s.batch_timings.getD k []).length = (batch_sizes rows).length ∧
        ∀ i, i < (batch_sizes rows).length →
          (s.batch_timings.getD k []).getD i 0 = sample env k i) ∧
      ∃ wh, (∀ l ∈ wh, ∃ a b c, l = Line.WH a b c) ∧
        s.stdout = wh ++
          [Line.title,
           Line.elapsed (microseconds (env.clock (.line 147)) (env.clock (.line 162)))
             (microseconds (env.clock (.line 189)) (env.clock (.line 213))),
           Line.header (batch_sizes rows),
           Line.row "FIL-Dense" (s.batch_timings.getD 0 []),
           Line.row "FIL-Sparse" (s.batch_timings.getD 1 []),
           Line.row "H2" (s.batch_timings.getD 2 []),
           Line.row "H4" (s.batch_timings.getD 3 []),
           Line.row "H8" (s.batch_timings.getD 4 []),
           Line.row "H16" (s.batch_timings.getD 5 []),
           Line.row "H32" (s.batch_timings.getD 6 []),
           Line.row "H3-CPU" (s.batch_timings.getD 7 [])]) := by
  refine ⟨fun hr hq => ⟨_, main_ok env file rows features hr hrs hq⟩, rfl, ?_⟩
  intro s hs
  have htr : s.trace = (List.range 8).flatMap (benchmark_events env rows features) := by
    rw [main_ok_eq env file rows features hrs s hs]
    simp only [report]
    rw [after_benchmarks_trace]
    simp [init]
  have hbt : s.batch_timings
      = [samples env rows 0, samples env rows 1, samples env rows 2, samples env rows 3,
         samples env rows 4, samples env rows 5, samples env rows 6, samples env rows 7] := by
    rw [main_ok_eq env file rows features hrs s hs]
    simp only [report]
    exact all_batch_timings env rows features _
  refine ⟨htr, by rw [hbt]; rfl, ?_, ?_⟩
  · intro k hk
    have hrow : s.batch_timings.getD k [] = samples env rows k := by
      rw [hbt]
      interval_cases k <;> rfl
    rw [hrow]
    refine ⟨by simp [samples], ?_⟩
    intro i hi
    rw [List.getD_eq_getElem _ _ (by simpa [samples] using hi)]
    simp [samples]
  · refine ⟨(after_benchmarks env rows features (List.range 8)
      (init env (load_array file rows features))).stdout, ?_, ?_⟩
    · exact after_benchmarks_stdout_WH env rows features _ _ (by simp [init])
    · rw [main_ok_eq env file rows features hrs s hs]
      simp only [report, report_lines, label]

/-- Witness of C6: the run of `sample_env` on three rows returns; the row of the
second loop has 18 entries, and its entry 5 is the sample of pass 5. -/
theorem report_table_complete_witness :
    ∃ s, main (sample_env 3) (List.replicate 24 0) 3 2 = .ok s ∧
      s.batch_timings.length = 8 ∧
      (s.batch_timings.getD 1 []).length = 18 ∧
      (s.batch_timings.getD 1 []).getD 5 0 = 24 := by
  have h := report_table_complete (sample_env 3) (List.replicate 24 0) 3 2 (by decide)
  obtain ⟨s, hs⟩ := h.1 (by decide) (fun _ _ _ _ _ _ => rfl)
  have h2 := (h.2.2 s hs).2.2.1 1 (by decide)
  refine ⟨s, hs, (h.2.2 s hs).2.1, h2.1, ?_⟩
  rw [h2.2 5 (by decide)]
  decide

/-! ## A predict call that throws -/

theorem before_events_mem (k : Nat) (e : Event) (h : e ∈ before_events k) :
    ∃ n, e = Event.now (.line n) := by
  rcases k with _ | _ | _ | _ | _ | _ | _ | _ | k <;>
    simp only [before_events, List.mem_cons, List.mem_singleton, List.not_mem_nil,
      or_false] at h
  · exact ⟨_, h⟩
  · exact ⟨_, h⟩
  · rcases h with h | h <;> exact ⟨_, h⟩
  · exact ⟨_, h⟩

theorem after_events_mem (k : Nat) (e : Event) (h : e ∈ after_events k) :
    (∃ n, e = Event.now (.line n)) ∨ e = Event.memcpy_to_host k := by
  rcases k with _ | _ | _ | _ | _ | _ | _ | _ | k <;>
    simp only [after_events, List.mem_cons, List.mem_singleton, List.not_mem_nil,
      or_false] at h
  · rcases h with h | h
    · exact Or.inl ⟨_, h⟩
    · exact Or.inr h
  · exact Or.inl ⟨_, h⟩
  · rcases h with h | h
    · exact Or.inl ⟨_, h⟩
    · exact Or.inr h
  · exact Or.inl ⟨_, h⟩

theorem pass_events_mem (env : Env) (rows features k i total : Nat) (e : Event)
    (h : e ∈ pass_events env rows features k i total) :
    e = Event.now (.batch_start k i) ∨
    (∃ j, j < total ∧
      e = Event.predict k i j (runner k) (cur_input rows features (batch_at rows i) j) 0) ∨
    e = Event.sync k i ∨ e = Event.now (.batch_end k i) ∨
    e = Event.push_back k i (sample env k i) := by
  simp only [pass_events, predict_events, List.mem_append, List.mem_map, List.mem_range,
    List.mem_cons, List.mem_singleton, List.not_mem_nil, or_false] at h
  rcases h with ((h | ⟨j, hj, h⟩) | h) | h | h
  · exact Or.inl h
  · exact Or.inr (Or.inl ⟨j, hj, h.symm⟩)
  · by_cases hg : on_gpu k = true
    · simp only [hg, if_true, List.mem_singleton] at h
      exact Or.inr (Or.inr (Or.inl h))
    · simp only [hg] at h
      cases h
  · exact Or.inr (Or.inr (Or.inr (Or.inl h)))
  · exact Or.inr (Or.inr (Or.inr (Or.inr h)))

theorem benchmark_events_mem (env : Env) (rows features k : Nat) (e : Event)
    (h : e ∈ benchmark_events env rows features k) :
    (∃ n, e = Event.now (.line n)) ∨ e = Event.memcpy_to_host k ∨
    ∃ i, i < (batch_sizes rows).length ∧
      e ∈ pass_events env rows features k i (batch_count rows i) := by
  simp only [benchmark_events, List.mem_append, List.mem_flatMap, List.mem_range] at h
  rcases h with (h | ⟨i, hi, h⟩) | h
  · exact Or.inl (before_events_mem k e h)
  · exact Or.inr (Or.inr ⟨i, hi, h⟩)
  · rcases after_events_mem k e h with h | h
    · exact Or.inl h
    · exact Or.inr (Or.inl h)

/-- C7: when the predict call on sub-range `j` of pass `i` of loop `k` is the
first to throw, the run ends in that error. The trace then holds the events of
the loops before `k` and of the passes before `i`, the start timestamp of pass
`i` and its predict calls up to `j`, and nothing after: no predict call later
in program order is dispatched, no sample of pass `i` or of a later pass or
loop is recorded, so row `k` of `batch_timings` keeps the samples of the
batch sizes before `i`, and standard output holds no line of the table. -/
theorem predict_failure_aborts (env : Env) (file : List Nat) (rows features k i j : Nat)
    (hrs : rows < SIZE) (hf : FirstThrow env rows k i j) :
    ∃ s, main env file rows features = .error (.ExecutionError k i j, s) ∧
      s.trace = (List.range k).flatMap (benchmark_events env rows features)
        ++ before_events k
        ++ (List.range i).flatMap
            (fun i' => pass_events env rows features k i' (batch_count rows i'))
        ++ [Event.now (.batch_start k i)]
        ++ (List.range (j + 1)).map
            (fun j' => Event.predict k i j' (runner k)
              (cur_input rows features (batch_at rows i) j') 0) ∧
      (∀ k' i' j' r m o, Event.predict k' i' j' r m o ∈ s.trace →
        Earlier k' i' j' k i j ∨ (k' = k ∧ i' = i ∧ j' = j)) ∧
      (∀ k' i' us, Event.push_back k' i' us ∈ s.trace → k' < k ∨ (k' = k ∧ i' < i)) ∧
      s.batch_timings = (List.range 8).map (fun k' =>
          if k' < k then samples env rows k'
          else if k' = k then (List.range i).map (sample env k) else []) ∧
      (∀ l ∈ s.stdout, ∃ a b c, l = Line.WH a b c) := by
  have htrace : (fail_state env rows features k i j
      (after_benchmarks env rows features (List.range k)
        (init env (load_array file rows features)))).trace
      = (List.range k).flatMap (benchmark_events env rows features)
        ++ before_events k
        ++ (List.range i).flatMap
            (fun i' => pass_events env rows features k i' (batch_count rows i'))
        ++ [Event.now (.batch_start k i)]
        ++ (List.range (j + 1)).map
            (fun j' => Event.predict k i j' (runner k)
              (cur_input rows features (batch_at rows i) j') 0) := by
    rw [fail_state_trace, after_benchmarks_trace]
    simp [init]
  refine ⟨_, main_fail env file rows features k i j hrs hf, htrace, ?_, ?_, ?_, ?_⟩
  · intro k' i' j' r m o hmem
    rw [htrace] at hmem
    simp only [List.mem_append, List.mem_flatMap, List.mem_range, List.mem_map,
      List.mem_singleton] at hmem
    rcases hmem with (((⟨a, ha, hmem⟩ | hmem) | ⟨a, ha, hmem⟩) | hmem) | ⟨a, ha, hmem⟩
    · rcases benchmark_events_mem _ _ _ _ _ hmem with ⟨n, h⟩ | h | ⟨b, _, h⟩
      · cases h
      · cases h
      · rcases pass_events_mem _ _ _ _ _ _ _ h with h | ⟨c, _, h⟩ | h | h | h
        · cases h
        · cases h; exact Or.inl (Or.inl ha)
        · cases h
        · cases h
        · cases h
    · obtain ⟨n, h⟩ := before_events_mem _ _ hmem
      cases h
    · rcases pass_events_mem _ _ _ _ _ _ _ hmem with h | ⟨c, _, h⟩ | h | h | h
      · cases h
      · cases h; exact Or.inl (Or.inr ⟨rfl, Or.inl ha⟩)
      · cases h
      · cases h
      · cases h
    · cases hmem
    · cases hmem
      rcases Nat.lt_or_ge j' j with h | h
      · exact Or.inl (Or.inr ⟨rfl, Or.inr ⟨rfl, h⟩⟩)
      · exact Or.inr ⟨rfl, rfl, by omega⟩
  · intro k' i' us hmem
    rw [htrace] at hmem
    simp only [List.mem_append, List.mem_flatMap, List.mem_range, List.mem_map,
      List.mem_singleton] at hmem
    rcases hmem with (((⟨a, ha, hmem⟩ | hmem) | ⟨a, ha, hmem⟩) | hmem) | ⟨a, ha, hmem⟩
    · rcases benchmark_events_mem _ _ _ _ _ hmem with ⟨n, h⟩ | h | ⟨b, _, h⟩
      · cases h
      · cases h
      · rcases pass_events_mem _ _ _ _ _ _ _ h with h | ⟨c, _, h⟩ | h | h | h
        · cases h
        · cases h
        · cases h
        · cases h
        · cases h; exact Or.inl ha
    · obtain ⟨n, h⟩ := before_events_mem _ _ hmem
      cases h
    · rcases pass_events_mem _ _ _ _ _ _ _ hmem with h | ⟨c, _, h⟩ | h | h | h
      · cases h
      · cases h
      · cases h
      · cases h
      · cases h; exact Or.inr ⟨rfl, ha⟩
    · cases hmem
    · cases hmem
  · rw [fail_state_batch_timings _ _ _ _ _ _ _ (by
      rw [after_benchmarks_batch_timings]
      · have hlen : ∀ (ks : List Nat) (bt : List (List Nat)),
            (ks.foldl (fun bt k => bt.set k (bt.getD k [] ++ samples env rows k)) bt).length
              = bt.length := by
          intro ks
          induction ks with
          | nil => intro bt; rfl
          | cons a ks ih => intro bt; rw [List.foldl_cons, ih, List.length_set]
        rw [hlen]
        simpa [init] using hf.1
      · intro k' hk'
        have := List.mem_range.mp hk'
        have := hf.1
        simp only [init, List.length_replicate]
        omega)]
    exact stopped_batch_timings env rows features k i hf.1 _
  · rw [fail_state_stdout]
    exact after_benchmarks_stdout_WH env rows features _ _ (by simp [init])

theorem faulty_env_first_throw : FirstThrow (faulty_env 3) 3 2 1 1 := by
  refine ⟨by decide, by decide, by decide, rfl, ?_⟩
  intro k' i' j' _ _ _ hearlier
  unfold Earlier at hearlier
  by_contra hne
  have ht : (faulty_env 3).predict_throws k' i' j' = true := by
    cases h : (faulty_env 3).predict_throws k' i' j' with
    | true => rfl
    | false => exact absurd h hne
  simp only [faulty_env, Bool.and_eq_true, beq_iff_eq] at ht
  omega

/-- Witness of C7: in `faulty_env` on three rows the run ends in the error of
the second call of pass 1 of loop 2, with one sample in row 2. -/
theorem predict_failure_aborts_witness :
    ∃ s, main (faulty_env 3) (List.replicate 24 0) 3 2
        = .error (.ExecutionError 2 1 1, s) ∧
      s.batch_timings.getD 2 [] = [sample (faulty_env 3) 2 0] ∧
      s.batch_timings.getD 3 [] = [] := by
  obtain ⟨s, hs, _, _, _, hbt, _⟩ :=
    predict_failure_aborts (faulty_env 3) (List.replicate 24 0) 3 2 2 1 1 (by decide)
      faulty_env_first_throw
  refine ⟨s, hs, ?_, ?_⟩
  · rw [hbt]; rfl
  · rw [hbt]; rfl

/-! ## The order of events in a pass -/

theorem of_pass_pass_events (env : Env) (rows features k i k' i' total : Nat) (e : Event)
    (h : e ∈ pass_events env rows features k' i' total) (hne : k' ≠ k ∨ i' ≠ i) :
    of_pass k i e = false := by
  have hb : (k' == k && i' == i) = false := by
    rcases hne with h1 | h1
    · simp [h1]
    · simp [h1]
  rcases pass_events_mem _ _ _ _ _ _ _ h with h | ⟨j, _, h⟩ | h | h | h <;>
    rw [h] <;> exact hb

theorem of_pass_benchmark_events (env : Env) (rows features k i k' : Nat) (e : Event)
    (h : e ∈ benchmark_events env rows features k') (hne : k' ≠ k) :
    of_pass k i e = false := by
  rcases benchmark_events_mem _ _ _ _ _ h with ⟨n, h⟩ | h | ⟨i', _, h⟩
  · rw [h]; rfl
  · rw [h]; rfl
  · exact of_pass_pass_events env rows features k i k' i' _ e h (Or.inl hne)

/-- The trace of a run that returns splits around each pass. -/
theorem trace_split (env : Env) (rows features k i : Nat) (hk : k < 8)
    (hi : i < (batch_sizes rows).length) :
    ∃ pre post,
      (List.range 8).flatMap (benchmark_events env rows features)
        = pre ++ pass_events env rows features k i (batch_count rows i) ++ post ∧
      ∀ e ∈ pre ++ post, of_pass k i e = false := by
  obtain ⟨ks, hks, hksgt⟩ := range_split_gt hk
  obtain ⟨is, his, hisgt⟩ := range_split_gt hi
  refine ⟨(List.range k).flatMap (benchmark_events env rows features) ++ before_events k
      ++ (List.range i).flatMap
          (fun i' => pass_events env rows features k i' (batch_count rows i')),
    is.flatMap (fun i' => pass_events env rows features k i' (batch_count rows i'))
      ++ after_events k ++ ks.flatMap (benchmark_events env rows features), ?_, ?_⟩
  · rw [hks, List.flatMap_append, List.flatMap_cons]
    conv_lhs => rw [benchmark_events, his, List.flatMap_append, List.flatMap_cons]
    simp only [List.append_assoc]
  · intro e he
    simp only [List.mem_append, List.mem_flatMap, List.mem_range] at he
    rcases he with ((⟨a, ha, he⟩ | he) | ⟨a, ha, he⟩) | ((⟨a, ha, he⟩ | he) | ⟨a, ha, he⟩)
    · exact of_pass_benchmark_events env rows features k i a e he (by omega)
    · obtain ⟨n, h⟩ := before_events_mem k e he
      rw [h]; rfl
    · exact of_pass_pass_events env rows features k i k a _ e he (Or.inr (by omega))
    · exact of_pass_pass_events env rows features k i k a _ e he
        (Or.inr (by have := hisgt a ha; omega))
    · rcases after_events_mem k e he with ⟨n, h⟩ | h
      · rw [h]; rfl
      · rw [h]; rfl
    · exact of_pass_benchmark_events env rows features k i a e he
        (by have := hksgt a ha; omega)

/-- C9: in a run that returns, the trace is the concatenation, in program
order, of the events of the eight loops; for every pass of the loops `0` to
`6` the trace has exactly one segment with the events of that pass, which
reads: start timestamp, the predict calls of the plan in sub-range order, one
`cudaStreamSynchronize`, end timestamp, sample recorded. In a run that a
predict call ends, the trace stops at that call: the pass has no barrier and
no end timestamp. -/
theorem pass_event_order (env : Env) (file : List Nat) (rows features : Nat)
    (hrs : rows < SIZE) :
    (∀ k, k < 7 → on_gpu k = true) ∧
    (0 < rows → Quiet env rows →
      ∃ s, main env file rows features = .ok s ∧
        s.trace = (List.range 8).flatMap (fun k =>
          before_events k
            ++ (List.range (batch_sizes rows).length).flatMap
                (fun i => pass_events env rows features k i (batch_count rows i))
            ++ after_events k) ∧
        ∀ k i, k < 7 → i < (batch_sizes rows).length →
          total_batches rows (batch_at rows i) = .ok (batch_count rows i) ∧
          ∃ pre post,
            s.trace = pre
              ++ ([Event.now (.batch_start k i)]
                ++ (List.range (batch_count rows i)).map
                    (fun j => Event.predict k i j (runner k)
                      (cur_input rows features (batch_at rows i) j) 0)
                ++ [Event.sync k i, Event.now (.batch_end k i),
                    Event.push_back k i (sample env k i)])
              ++ post ∧
            ∀ e ∈ pre ++ post, of_pass k i e = false) ∧
    (∀ k i j, FirstThrow env rows k i j →
      ∃ s, main env file rows features = .error (.ExecutionError k i j, s) ∧
        ∃ pre, s.trace = pre
          ++ ([Event.now (.batch_start k i)]
            ++ (List.range (j + 1)).map
                (fun j' => Event.predict k i j' (runner k)
                  (cur_input rows features (batch_at rows i) j') 0)) ∧
          ∀ e ∈ pre, of_pass k i e = false) := by
  have hgpu : ∀ k, k < 7 → on_gpu k = true := by
    intro k hk
    interval_cases k <;> rfl
  refine ⟨hgpu, ?_, ?_⟩
  · intro hr hq
    have htrace : (report env rows (after_benchmarks env rows features (List.range 8)
        (init env (load_array file rows features)))).trace
        = (List.range 8).flatMap (benchmark_events env rows features) := by
      simp only [report]
      rw [after_benchmarks_trace]
      simp [init]
    refine ⟨_, main_ok env file rows features hr hrs hq, htrace, ?_⟩
    intro k i hk hi
    refine ⟨total_batches_at hr hrs hi, ?_⟩
    obtain ⟨pre, post, hsplit, hout⟩ := trace_split env rows features k i (by omega) hi
    refine ⟨pre, post, ?_, hout⟩
    rw [htrace, hsplit]
    simp only [pass_events, predict_events, hgpu k hk, if_true, List.append_assoc,
      List.singleton_append, List.cons_append, List.nil_append]
  · intro k i j hf
    refine ⟨_, main_fail env file rows features k i j hrs hf,
      (List.range k).flatMap (benchmark_events env rows features) ++ before_events k
        ++ (List.range i).flatMap
            (fun i' => pass_events env rows features k i' (batch_count rows i')), ?_, ?_⟩
    · rw [fail_state_trace, after_benchmarks_trace]
      simp only [init, List.nil_append, List.append_assoc]
    · intro e he
      simp only [List.mem_append, List.mem_flatMap, List.mem_range] at he
      rcases he with (⟨a, ha, he⟩ | he) | ⟨a, ha, he⟩
      · exact of_pass_benchmark_events env rows features k i a e he (by omega)
      · obtain ⟨n, h⟩ := before_events_mem k e he
        rw [h]; rfl
      · exact of_pass_pass_events env rows features k i k a _ e he (Or.inr (by omega))

/-- Witness of C9: the run of `sample_env` on three rows returns, and the run of
`faulty_env` ends inside pass 1 of loop 2. -/
theorem pass_event_order_witness :
    (∃ s, main (sample_env 3) (List.replicate 24 0) 3 2 = .ok s ∧
      s.trace = (List.range 8).flatMap (fun k =>
        before_events k
          ++ (List.range (batch_sizes 3).length).flatMap
              (fun i => pass_events (sample_env 3) 3 2 k i (batch_count 3 i))
          ++ after_events k)) ∧
    (∃ s, main (faulty_env 3) (List.replicate 24 0) 3 2
      = .error (.ExecutionError 2 1 1, s)) := by
  have h := pass_event_order (sample_env 3) (List.replicate 24 0) 3 2 (by decide)
  have h2 := pass_event_order (faulty_env 3) (List.replicate 24 0) 3 2 (by decide)
  obtain ⟨s, hs, ht, _⟩ := h.2.1 (by decide) (fun _ _ _ _ _ _ => rfl)
  obtain ⟨s2, hs2, _⟩ := h2.2.2 2 1 1 faulty_env_first_throw
  exact ⟨⟨s, hs, ht⟩, ⟨s2, hs2⟩⟩

/-! ## The last pass of a loop -/

end ForestBench
